import Mathlib

/-!
Verification development for the `pixel_land_canister` exchange core
(`src/ree/token_pool.rs`, `src/ree/exchange.rs`).

Shallow embedding conventions:
* `u64` / `u128` machine integers are modelled as `Nat`; wherever the Rust
  code performs a checked or truncating conversion (`try_into`, `checked_add`,
  `checked_sub`, `as u64`), the embedding makes the bound explicit
  (`< 2 ^ 64`, `% 2 ^ 64`).  The unchecked `nonce += 1` on the `u64` counter
  wraps at `u64::MAX` in a release build and is modelled as `(nonce + 1) % 2 ^ 64`.
* Fallible Rust functions returning `Result<_, ExchangeError>` become
  `Except ExchangeError _`.
* `ic_cdk::api::time()` is passed in as an explicit `now` argument.
* External collaborator types (`Pubkey`, `Utxo`, PSBT codec) are opaque
  stand-ins: the core never inspects them.
-/

/-- Bitcoin transaction id (32-byte identifier, abstracted to its value). -/
abbrev Txid := Nat

/-- `ree_types::CoinId`: either native BTC or a rune `{block, tx}`. -/
inductive CoinId where
  | btc : CoinId
  | rune (block : Nat) (tx : Nat) : CoinId
deriving DecidableEq, Repr

/-- `ree_types::Coin { id, value }`; `value` is a `u128`. -/
structure Coin where
  id : CoinId
  value : Nat
deriving DecidableEq, Repr

/-- `ree_types::InputCoin`; the core only reads `.coin`. -/
structure InputCoin where
  from_addr : String
  coin : Coin
deriving DecidableEq, Repr

/-- `ree_types::OutputCoin`; the core only reads `.coin`. -/
structure OutputCoin where
  to_addr : String
  coin : Coin
deriving DecidableEq, Repr

/-- `ree_types::Utxo` stand-in; passed through `validate_*` unused. -/
structure Utxo where
  outpoint : String
  sats : Nat
deriving DecidableEq, Repr

/-- `src/ree/mod.rs` `ExchangeError` (thiserror enum). -/
inductive ExchangeError where
  | Overflow
  | InvalidToken
  | TooSmallFunds
  | InvalidTxid
  | EmptyToken
  | InvalidState (msg : String)
  | InvalidSignPsbtArgs (msg : String)
  | TokenStateExpired (nonce : Nat)
  | InsufficientBtc
deriving DecidableEq, Repr

/-- The `#[error(...)]` display strings of `ExchangeError`, used by
`execute_tx`'s `map_err(|e| e.to_string())`. -/
def ExchangeError.toMessage : ExchangeError → String
  | .Overflow => "overflow"
  | .InvalidToken => "invalid token"
  | .TooSmallFunds => "too small funds"
  | .InvalidTxid => "invalid txid"
  | .EmptyToken => "the token has not been initialized or has been removed"
  | .InvalidState msg => "invalid token state: " ++ msg
  | .InvalidSignPsbtArgs msg => "invalid sign_psbt args: " ++ msg
  | .TokenStateExpired nonce => "token state expired, current = " ++ toString nonce
  | .InsufficientBtc => "insufficient btc balance for sell"

/-- `token_pool.rs`: `pub const MIN_BTC_VALUE: u64 = 10000`. -/
def MIN_BTC_VALUE : Nat := 10000

/-- `token_pool.rs` `TokenMeta` (immutable pool metadata). -/
structure TokenMeta where
  id : CoinId
  symbol : String
  exchange_rate : Nat
  min_amount : Nat
deriving DecidableEq, Repr

/-- `token_pool.rs` `TokenState`: one versioned snapshot of a pool. -/
structure TokenState where
  id : Option Txid
  nonce : Nat
  btc_balance : Nat
  exchange_rate : Option Nat
  timestamp : Nat
deriving DecidableEq, Repr

/-- `TokenState::default()`: all fields zero / `None`. -/
def TokenState.default : TokenState :=
  { id := none, nonce := 0, btc_balance := 0, exchange_rate := none, timestamp := 0 }

/-- `token_pool.rs` `CanvasToken`: a pool.  `Pubkey` is opaque (`String`). -/
structure CanvasToken where
  states : List TokenState
  meta : TokenMeta
  pubkey : String
  tweaked : String
  addr : String
deriving DecidableEq, Repr

namespace CanvasToken

/-- `CanvasToken::token_id`. -/
def token_id (t : CanvasToken) : CoinId := t.meta.id

/-- `CanvasToken::get_current_exchange_rate`:
`states.last().and_then(|s| s.exchange_rate).unwrap_or(meta.exchange_rate)`. -/
def get_current_exchange_rate (t : CanvasToken) : Nat :=
  (t.states.getLast?.bind (fun s => s.exchange_rate)).getD t.meta.exchange_rate

/-- `CanvasToken::calculate_buy_amount_with_rate`:
`(btc_amount as u128) * (exchange_rate as u128)`.  Both factors are `u64`
(`< 2 ^ 64`), so the `u128` product cannot overflow; plain `Nat`
multiplication is exact. -/
def calculate_buy_amount_with_rate (_t : CanvasToken) (btc_amount exchange_rate : Nat) : Nat :=
  btc_amount * exchange_rate

/-- `CanvasToken::calculate_sell_amount_with_rate`:
`(token_amount / (exchange_rate as u128)) as u64`.  The `as u64` cast
truncates, i.e. reduces the `u128` quotient modulo `2 ^ 64`.  (Rust `u128`
division by zero panics; all uses in this development have
`exchange_rate > 0`.) -/
def calculate_sell_amount_with_rate (_t : CanvasToken) (token_amount exchange_rate : Nat) : Nat :=
  (token_amount / exchange_rate) % 2 ^ 64

/-- `CanvasToken::calculate_buy_amount` (uses the current rate). -/
def calculate_buy_amount (t : CanvasToken) (btc_amount : Nat) : Nat :=
  t.calculate_buy_amount_with_rate btc_amount t.get_current_exchange_rate

/-- `CanvasToken::calculate_sell_amount` (uses the current rate). -/
def calculate_sell_amount (t : CanvasToken) (token_amount : Nat) : Nat :=
  t.calculate_sell_amount_with_rate token_amount t.get_current_exchange_rate

/-- `CanvasToken::validate_buy_token` (token_pool.rs:126-197), translated
check-for-check in source order.  The `[0]`-indexing after the length check
is rendered as the `[icoin] , [ocoin]` pattern.  `now` stands for
`ic_cdk::api::time()`. -/
def validate_buy_token (t : CanvasToken) (txid : Txid) (nonce : Nat)
    (_token_utxo_spent : List String) (_token_utxo_received : List Utxo)
    (input_coins : List InputCoin) (output_coins : List OutputCoin)
    (exchange_rate : Nat) (now : Nat) : Except ExchangeError (TokenState × Nat) :=
  match input_coins, output_coins with
  | [icoin], [ocoin] =>
    if icoin.coin.id ≠ CoinId.btc then
      .error (.InvalidSignPsbtArgs "invalid input_coin, buy_token requires BTC")
    else if ocoin.coin.id ≠ t.token_id then
      .error (.InvalidSignPsbtArgs "invalid output_coin, wrong token type")
    else
      -- states.last().cloned().unwrap_or_default()
      let state := t.states.getLast?.getD TokenState.default
      if state.nonce ≠ nonce then
        .error (.TokenStateExpired state.nonce)
      -- btc_input.value.try_into() : u128 -> u64
      else if ¬ icoin.coin.value < 2 ^ 64 then
        .error .Overflow
      else if icoin.coin.value < MIN_BTC_VALUE then
        .error .TooSmallFunds
      else if ocoin.coin.value ≠ t.calculate_buy_amount_with_rate icoin.coin.value exchange_rate then
        .error (.InvalidSignPsbtArgs "token output amount mismatch with exchange rate")
      -- state.btc_balance.checked_add(btc_amount)
      else if ¬ state.btc_balance + icoin.coin.value < 2 ^ 64 then
        .error .Overflow
      else
        -- state.nonce += 1 : unchecked u64 increment, wraps at u64::MAX
        .ok ({ state with
                btc_balance := state.btc_balance + icoin.coin.value
                nonce := (state.nonce + 1) % 2 ^ 64
                id := some txid
                exchange_rate := some exchange_rate
                timestamp := now },
             t.calculate_buy_amount_with_rate icoin.coin.value exchange_rate)
  | _, _ =>
    .error (.InvalidSignPsbtArgs
      "invalid input/output_coins, buy_token requires 1 BTC input and 1 Token output")

/-- `CanvasToken::validate_sell_token` (token_pool.rs:202-279), translated
check-for-check in source order.  The trailing `checked_sub` is kept even
though the preceding balance check makes it unreachable. -/
def validate_sell_token (t : CanvasToken) (txid : Txid) (nonce : Nat)
    (_token_utxo_spent : List String) (_token_utxo_received : List Utxo)
    (input_coins : List InputCoin) (output_coins : List OutputCoin)
    (exchange_rate : Nat) (now : Nat) : Except ExchangeError (TokenState × Nat) :=
  match input_coins, output_coins with
  | [icoin], [ocoin] =>
    if icoin.coin.id ≠ t.token_id then
      .error (.InvalidSignPsbtArgs "invalid input_coin, wrong token type")
    else if ocoin.coin.id ≠ CoinId.btc then
      .error (.InvalidSignPsbtArgs "invalid output_coin, sell_token requires BTC output")
    else
      match t.states.getLast? with
      | none => .error .EmptyToken
      | some state =>
        if state.nonce ≠ nonce then
          .error (.TokenStateExpired state.nonce)
        else if t.calculate_sell_amount_with_rate icoin.coin.value exchange_rate
                < MIN_BTC_VALUE then
          .error .TooSmallFunds
        -- btc_output.value.try_into() : u128 -> u64
        else if ¬ ocoin.coin.value < 2 ^ 64 then
          .error .Overflow
        else if ocoin.coin.value
                ≠ t.calculate_sell_amount_with_rate icoin.coin.value exchange_rate then
          .error (.InvalidSignPsbtArgs "BTC output amount mismatch with exchange rate")
        else if state.btc_balance
                < t.calculate_sell_amount_with_rate icoin.coin.value exchange_rate then
          .error .InsufficientBtc
        -- state.btc_balance.checked_sub(expected) — unreachable failure branch kept
        else if state.btc_balance
                < t.calculate_sell_amount_with_rate icoin.coin.value exchange_rate then
          .error .Overflow
        else
          -- state.nonce += 1 : unchecked u64 increment, wraps at u64::MAX
          .ok ({ state with
                  btc_balance := state.btc_balance
                    - t.calculate_sell_amount_with_rate icoin.coin.value exchange_rate
                  nonce := (state.nonce + 1) % 2 ^ 64
                  id := some txid
                  exchange_rate := some exchange_rate
                  timestamp := now },
               t.calculate_sell_amount_with_rate icoin.coin.value exchange_rate)
  | _, _ =>
    .error (.InvalidSignPsbtArgs
      "invalid input/output_coins, sell_token requires 1 Token input and 1 BTC output")

end CanvasToken

/-- `Vec::iter().position(p)` (first index satisfying `p`). -/
def position {α : Type} (p : α → Bool) : List α → Option Nat
  | [] => none
  | a :: as => if p a then some 0 else (position p as).map (· + 1)

namespace CanvasToken

/-- `CanvasToken::rollback` (token_pool.rs:283-295): drop the state created
by `txid` and everything after it; clearing everything when it is the base. -/
def rollback (t : CanvasToken) (txid : Txid) : Except ExchangeError CanvasToken :=
  match position (fun s => decide (s.id = some txid)) t.states with
  | none => .error (.InvalidState "txid not found")
  | some 0 => .ok { t with states := [] }
  | some idx => .ok { t with states := t.states.take idx }

/-- `CanvasToken::finalize` (token_pool.rs:299-311):
`states.rotate_left(idx); states.truncate(len - idx)` makes the state of
`txid` the new index-0 base. -/
def finalize (t : CanvasToken) (txid : Txid) : Except ExchangeError CanvasToken :=
  match position (fun s => decide (s.id = some txid)) t.states with
  | none => .error (.InvalidState "txid not found")
  | some 0 => .ok t
  | some idx =>
    .ok { t with states := (t.states.rotate idx).take (t.states.length - idx) }

/-- `CanvasToken::commit`: push the new state. -/
def commit (t : CanvasToken) (state : TokenState) : CanvasToken :=
  { t with states := t.states ++ [state] }

end CanvasToken

/-! ### Concrete fixtures used by witnesses and counterexamples -/

/-- A sample pool metadata: the rune `1:1` at rate 100. -/
def sampleMeta : TokenMeta :=
  { id := CoinId.rune 1 1, symbol := "PX", exchange_rate := 100, min_amount := 1 }

/-- A freshly initialised pool (empty state history). -/
def samplePool : CanvasToken :=
  { states := [], meta := sampleMeta, pubkey := "pk", tweaked := "tw", addr := "pool1" }

/-- A BTC input coin of the given value. -/
def btcInput (v : Nat) : InputCoin :=
  { from_addr := "user", coin := { id := CoinId.btc, value := v } }

/-- A token output coin (rune `1:1`) of the given value. -/
def tokenOutput (v : Nat) : OutputCoin :=
  { to_addr := "user", coin := { id := CoinId.rune 1 1, value := v } }

/-- A token input coin (rune `1:1`) of the given value. -/
def tokenInput (v : Nat) : InputCoin :=
  { from_addr := "user", coin := { id := CoinId.rune 1 1, value := v } }

/-- A BTC output coin of the given value. -/
def btcOutput (v : Nat) : OutputCoin :=
  { to_addr := "user", coin := { id := CoinId.btc, value := v } }

/-- A pool with one committed state: nonce 1, 20000 sats, created by txid 3. -/
def samplePoolOneState : CanvasToken :=
  { states := [{ id := some 3, nonce := 1, btc_balance := 20000,
                 exchange_rate := some 100, timestamp := 0 }],
    meta := sampleMeta, pubkey := "pk", tweaked := "tw", addr := "pool1" }

/-! ### Claim C1 -/

/-- A pool whose base state sits at nonce `u64::MAX`, so the next commit
wraps the stored nonce to 0. -/
def maxNoncePool : CanvasToken :=
  { states := [{ id := some 3, nonce := 2 ^ 64 - 1, btc_balance := 0,
                 exchange_rate := some 100, timestamp := 0 }],
    meta := sampleMeta, pubkey := "pk", tweaked := "tw", addr := "pool1" }

/-- Counterexample for C1: at `base.nonce = u64::MAX` — excluded by none of
the claim's preconditions — the unchecked `state.nonce += 1` wraps, and the
returned state carries nonce 0, not `base.nonce + 1`. -/
theorem c1_counterexample :
    maxNoncePool.validate_buy_token 7 (2 ^ 64 - 1) [] []
        [btcInput 10000] [tokenOutput 1000000] 100 42
      = .ok ({ id := some 7, nonce := 0, btc_balance := 10000,
               exchange_rate := some 100, timestamp := 42 }, 1000000) ∧
    (0 : Nat) ≠ (maxNoncePool.states.getLast?.getD TokenState.default).nonce + 1 :=
  ⟨rfl, by decide⟩

/-- Claim C1 (amended): when all preconditions of `validate_buy_token` pass
(one BTC input, one token output of the pool's coin id, nonce matching the
latest state's nonce — 0 for an empty pool via the default state —, input
value at least `MIN_BTC_VALUE` and fitting in `u64`, output value equal to
`input_btc * rate`, the balance addition not overflowing `u64`, and
additionally the nonce increment `base.nonce + 1` not overflowing `u64`),
the result is `ok` with exactly the state
`{ id := some txid, nonce := base.nonce + 1, btc_balance := base.btc_balance + btc,
exchange_rate := some rate, timestamp := now }` and the minted amount
`btc * rate`.  (At `base.nonce = u64::MAX` the stored nonce wraps to 0
instead.) -/
theorem c1_validate_buy_token_ok (t : CanvasToken) (txid : Txid) (nonce : Nat)
    (us : List String) (ur : List Utxo)
    (icoin : InputCoin) (ocoin : OutputCoin) (rate now : Nat)
    (hini : icoin.coin.id = CoinId.btc)
    (houti : ocoin.coin.id = t.meta.id)
    (hnonce : nonce = (t.states.getLast?.getD TokenState.default).nonce)
    (hfit : icoin.coin.value < 2 ^ 64)
    (hmin : MIN_BTC_VALUE ≤ icoin.coin.value)
    (hout : ocoin.coin.value = icoin.coin.value * rate)
    (hbal : (t.states.getLast?.getD TokenState.default).btc_balance
              + icoin.coin.value < 2 ^ 64)
    (hnw : (t.states.getLast?.getD TokenState.default).nonce + 1 < 2 ^ 64) :
    t.validate_buy_token txid nonce us ur [icoin] [ocoin] rate now
      = .ok ({ id := some txid
               nonce := (t.states.getLast?.getD TokenState.default).nonce + 1
               btc_balance := (t.states.getLast?.getD TokenState.default).btc_balance
                 + icoin.coin.value
               exchange_rate := some rate
               timestamp := now },
             icoin.coin.value * rate) := by
  simp only [CanvasToken.validate_buy_token, CanvasToken.token_id,
    CanvasToken.calculate_buy_amount_with_rate, hini, houti, hnonce, hout]
  simp only [ne_eq, not_true_eq_false, if_false, not_false_eq_true, if_true, hfit, hbal,
    not_lt.mpr hmin, Nat.mod_eq_of_lt hnw]

/-- Witness for C1 (amended): buying 10000 sats at rate 100 on a fresh pool
mints 1000000 tokens and yields the state `{nonce 1, balance 10000, rate 100}`. -/
theorem c1_witness :
    samplePool.validate_buy_token 7 0 [] [] [btcInput 10000] [tokenOutput 1000000] 100 42
      = .ok ({ id := some 7, nonce := 1, btc_balance := 10000,
               exchange_rate := some 100, timestamp := 42 }, 1000000) :=
  c1_validate_buy_token_ok samplePool 7 0 [] [] (btcInput 10000) (tokenOutput 1000000)
    100 42 rfl rfl rfl (by decide) (by decide) (by decide) (by decide) (by decide)

/-! ### Claim C9 -/

/-- Claim C9: if the shape, coin-type and nonce checks of
`validate_buy_token` pass but `input.value * rate` would overflow `u128`,
the result is the `Overflow` error; `validate_buy_token` is pure, so no new
state is produced. (The overflow forces `input.value ≥ 2 ^ 64`, which the
`try_into::<u64>` conversion catches.) -/
theorem c9_buy_overflow (t : CanvasToken) (txid : Txid) (nonce : Nat)
    (us : List String) (ur : List Utxo)
    (icoin : InputCoin) (ocoin : OutputCoin) (rate now : Nat)
    (hini : icoin.coin.id = CoinId.btc)
    (houti : ocoin.coin.id = t.meta.id)
    (hnonce : nonce = (t.states.getLast?.getD TokenState.default).nonce)
    (hrate : rate < 2 ^ 64)
    (hov : 2 ^ 128 ≤ icoin.coin.value * rate) :
    t.validate_buy_token txid nonce us ur [icoin] [ocoin] rate now
      = .error .Overflow := by
  have hbig : ¬ icoin.coin.value < 2 ^ 64 := by
    intro hlt
    have hmul : icoin.coin.value * rate < 2 ^ 64 * 2 ^ 64 :=
      Nat.mul_lt_mul_of_lt_of_lt hlt hrate
    have h128 : (2 : Nat) ^ 64 * 2 ^ 64 = 2 ^ 128 := by norm_num
    omega
  simp only [CanvasToken.validate_buy_token, CanvasToken.token_id, hini, houti, hnonce]
  simp [hbig]
  intro h
  omega

/-- Witness for C9: an input of `2 ^ 127` sats (a valid `u128`, too large
for `u64`, and overflowing `u128` when multiplied by rate 4) is rejected
with `Overflow`. -/
theorem c9_witness :
    samplePool.validate_buy_token 7 0 [] [] [btcInput (2 ^ 127)] [tokenOutput 0] 4 42
      = .error .Overflow :=
  c9_buy_overflow samplePool 7 0 [] [] (btcInput (2 ^ 127)) (tokenOutput 0) 4 42
    rfl rfl rfl (by decide) (by decide)

/-! ### Claim C2 -/

/-- Counterexample for C2: selling `2 ^ 65` tokens at rate 2 gives the true
quotient `2 ^ 64`, which exceeds `u64::MAX`; the code truncates it to `0`
(`as u64`) instead of returning an `Overflow` error, and
`validate_sell_token` consequently fails with `TooSmallFunds`, not
`Overflow`. -/
theorem c2_counterexample :
    CanvasToken.calculate_sell_amount_with_rate samplePoolOneState (2 ^ 65) 2 = 0 ∧
    samplePoolOneState.validate_sell_token 9 1 [] []
        [tokenInput (2 ^ 65)] [btcOutput 0] 2 0
      = .error ExchangeError.TooSmallFunds := by
  exact ⟨rfl, rfl⟩

/-- Claim C2 (amended): for every token amount and rate > 0 whose quotient
`token_amount / rate` exceeds `u64::MAX`, the sell-amount calculation used by
`validate_sell_token` and `pre_sell_token` does not error: it silently
truncates, returning `(token_amount / rate) % 2 ^ 64`, a value strictly
smaller than the true quotient. -/
theorem c2_sell_amount_truncates (t : CanvasToken) (tokens rate : Nat)
    (h1 : 0 < rate) (h2 : 2 ^ 64 ≤ tokens / rate) :
    t.calculate_sell_amount_with_rate tokens rate = tokens / rate % 2 ^ 64 ∧
    t.calculate_sell_amount_with_rate tokens rate < tokens / rate := by
  refine ⟨rfl, ?_⟩
  have := Nat.mod_lt (tokens / rate) (show 0 < 2 ^ 64 by norm_num)
  simp only [CanvasToken.calculate_sell_amount_with_rate]
  omega

/-- Witness for C2 (amended): at `tokens = 2 ^ 65`, `rate = 2` the truncated
result is strictly below the true quotient `2 ^ 64`. -/
theorem c2_witness :
    0 < 2 ∧ 2 ^ 64 ≤ 2 ^ 65 / 2 ∧
    (CanvasToken.calculate_sell_amount_with_rate samplePool (2 ^ 65) 2
        = 2 ^ 65 / 2 % 2 ^ 64 ∧
     CanvasToken.calculate_sell_amount_with_rate samplePool (2 ^ 65) 2 < 2 ^ 65 / 2) :=
  ⟨by decide, by decide,
   c2_sell_amount_truncates samplePool (2 ^ 65) 2 (by decide) (by decide)⟩

/-! ### Lemmas about `Vec::iter().position` -/

/-- If nothing matches, `position` finds nothing. -/
theorem position_eq_none {α : Type} {p : α → Bool} {l : List α}
    (h : ∀ a ∈ l, p a = false) : position p l = none := by
  induction l with
  | nil => rfl
  | cons x xs ih =>
    simp only [position]
    rw [if_neg (by simp [h x (by simp)]), ih (fun a ha => h a (by simp [ha]))]
    rfl

/-- A found index is in range. -/
theorem position_lt_length {α : Type} {p : α → Bool} {l : List α} {n : Nat}
    (h : position p l = some n) : n < l.length := by
  induction l generalizing n with
  | nil => simp [position] at h
  | cons x xs ih =>
    simp only [position] at h
    by_cases hx : p x
    · simp [hx] at h
      subst h
      simp
    · simp [hx, Option.map_eq_some'] at h
      obtain ⟨m, hm, rfl⟩ := h
      have := ih hm
      simp
      omega

/-- The element at a found index matches: the suffix from it starts with a
matching element. -/
theorem position_drop {α : Type} {p : α → Bool} {l : List α} {n : Nat}
    (h : position p l = some n) :
    ∃ a as, l.drop n = a :: as ∧ p a = true := by
  induction l generalizing n with
  | nil => simp [position] at h
  | cons x xs ih =>
    simp only [position] at h
    by_cases hx : p x
    · simp [hx] at h
      subst h
      exact ⟨x, xs, rfl, hx⟩
    · simp [hx, Option.map_eq_some'] at h
      obtain ⟨m, hm, rfl⟩ := h
      simpa using ih hm

/-- `position` finds the first match: nothing before it matches. -/
theorem position_take {α : Type} {p : α → Bool} {l : List α} {n : Nat}
    (h : position p l = some n) :
    ∀ a ∈ l.take n, p a = false := by
  induction l generalizing n with
  | nil => simp [position] at h
  | cons x xs ih =>
    simp only [position] at h
    by_cases hx : p x
    · simp [hx] at h
      subst h
      simp
    · simp [hx, Option.map_eq_some'] at h
      obtain ⟨m, hm, rfl⟩ := h
      intro a ha
      simp only [List.take_succ_cons, List.mem_cons] at ha
      rcases ha with rfl | ha
      · simpa using hx
      · exact ih hm a ha

/-- Rolling back the txid of the base state clears the whole history. -/
theorem rollback_of_head_match (t : CanvasToken) (txid : Txid) (a : TokenState)
    (as : List TokenState) (hs : t.states = a :: as) (ha : a.id = some txid) :
    t.rollback txid = .ok { t with states := [] } := by
  simp [CanvasToken.rollback, hs, position, ha]

/-! ### Claim C5 -/

/-- Claim C5: `rollback(txid)` returns `InvalidState` when no state carries
`txid` (leaving the pool unchanged, as it is pure); clears all states when
the first match is at index 0; and otherwise truncates to the first `idx`
states, after which no state with `id = some txid` remains. -/
theorem c5_rollback_spec (t : CanvasToken) (txid : Txid) :
    ((∀ s ∈ t.states, s.id ≠ some txid) →
       t.rollback txid = .error (.InvalidState "txid not found"))
  ∧ (position (fun s => decide (s.id = some txid)) t.states = some 0 →
       t.rollback txid = .ok { t with states := [] })
  ∧ (∀ idx, position (fun s => decide (s.id = some txid)) t.states = some idx → 0 < idx →
       t.rollback txid = .ok { t with states := t.states.take idx } ∧
       ∀ s ∈ t.states.take idx, s.id ≠ some txid) := by
  refine ⟨?_, ?_, ?_⟩
  · intro h
    have hp : position (fun s => decide (s.id = some txid)) t.states = none :=
      position_eq_none (fun a ha => by simpa using h a ha)
    simp [CanvasToken.rollback, hp]
  · intro h
    simp [CanvasToken.rollback, h]
  · intro idx h hpos
    constructor
    · cases idx with
      | zero => omega
      | succ k => simp [CanvasToken.rollback, h]
    · intro s hs
      have := position_take h s hs
      simpa using this

/-- A pool with two committed states: txid 3 (nonce 1) then txid 9 (nonce 2). -/
def samplePoolTwoStates : CanvasToken :=
  { states := [{ id := some 3, nonce := 1, btc_balance := 20000,
                 exchange_rate := some 100, timestamp := 0 },
               { id := some 9, nonce := 2, btc_balance := 30000,
                 exchange_rate := some 100, timestamp := 5 }],
    meta := sampleMeta, pubkey := "pk", tweaked := "tw", addr := "pool1" }

/-- Witness for C5: rolling back txid 9 (found at index 1) keeps exactly the
first state, and txid 9 is gone afterwards. -/
theorem c5_witness :
    position (fun s => decide (s.id = some 9)) samplePoolTwoStates.states = some 1 ∧
    0 < 1 ∧
    (samplePoolTwoStates.rollback 9
        = .ok { samplePoolTwoStates with states := samplePoolTwoStates.states.take 1 } ∧
     ∀ s ∈ samplePoolTwoStates.states.take 1, s.id ≠ some 9) :=
  ⟨rfl, by decide, (c5_rollback_spec samplePoolTwoStates 9).2.2 1 rfl (by decide)⟩

/-! ### Claim C6 -/

/-- Claim C6: if some state of the pool carries `txid` (at first index
`idx`), then `finalize(txid)` succeeds with exactly the former suffix
`states.drop idx`, whose head carries `id = some txid`; and a subsequent
`rollback(txid)` on the finalized pool succeeds and empties the states —
the intentional finalize-then-rollback asymmetry. -/
theorem c6_finalize_then_rollback (t : CanvasToken) (txid : Txid) (idx : Nat)
    (h : position (fun s => decide (s.id = some txid)) t.states = some idx) :
    t.finalize txid = .ok { t with states := t.states.drop idx } ∧
    (∃ s rest, t.states.drop idx = s :: rest ∧ s.id = some txid) ∧
    CanvasToken.rollback { t with states := t.states.drop idx } txid
      = .ok { t with states := [] } := by
  obtain ⟨a, as, hdrop, hpa⟩ := position_drop h
  have hlt := position_lt_length h
  refine ⟨?_, ⟨a, as, hdrop, of_decide_eq_true hpa⟩, ?_⟩
  · cases idx with
    | zero => simp [CanvasToken.finalize, h]
    | succ k =>
      simp only [CanvasToken.finalize, h]
      congr 1
      have hrot : t.states.rotate (k+1) = t.states.drop (k+1) ++ t.states.take (k+1) :=
        List.rotate_eq_drop_append_take (by omega)
      have hlen : (t.states.drop (k+1)).length = t.states.length - (k+1) := by simp
      rw [hrot, ← hlen, List.take_left]
  · exact rollback_of_head_match { t with states := t.states.drop idx } txid a as hdrop
      (of_decide_eq_true hpa)

/-- Witness for C6: finalizing txid 9 (at index 1) of the two-state pool
promotes its state to the base, and rolling txid 9 back afterwards clears
the pool. -/
theorem c6_witness :
    samplePoolTwoStates.finalize 9
        = .ok { samplePoolTwoStates with states := samplePoolTwoStates.states.drop 1 } ∧
    (∃ s rest, samplePoolTwoStates.states.drop 1 = s :: rest ∧ s.id = some 9) ∧
    CanvasToken.rollback
        { samplePoolTwoStates with states := samplePoolTwoStates.states.drop 1 } 9
      = .ok { samplePoolTwoStates with states := [] } :=
  c6_finalize_then_rollback samplePoolTwoStates 9 1 rfl

/-! ### Success-case inversion of the validators -/

/-- A successful buy validation produces a state whose nonce is the base
nonce plus one reduced modulo `2 ^ 64` (the wrapping u64 increment) and
whose id is the executed txid. -/
theorem validate_buy_ok_inv {t : CanvasToken} {txid : Txid} {nonce : Nat}
    {us : List String} {ur : List Utxo} {ic : List InputCoin} {oc : List OutputCoin}
    {rate now : Nat} {s : TokenState} {amt : Nat}
    (h : t.validate_buy_token txid nonce us ur ic oc rate now = .ok (s, amt)) :
    s.nonce = ((t.states.getLast?.getD TokenState.default).nonce + 1) % 2 ^ 64 ∧
    s.id = some txid := by
  simp only [CanvasToken.validate_buy_token] at h
  repeat' split at h
  any_goals exact Except.noConfusion h
  rw [Except.ok.injEq, Prod.mk.injEq] at h
  obtain ⟨hs, hamt⟩ := h
  subst hs
  exact ⟨rfl, rfl⟩

/-- A successful sell validation produces a state whose nonce is the base
nonce plus one reduced modulo `2 ^ 64` (the wrapping u64 increment) and
whose id is the executed txid. -/
theorem validate_sell_ok_inv {t : CanvasToken} {txid : Txid} {nonce : Nat}
    {us : List String} {ur : List Utxo} {ic : List InputCoin} {oc : List OutputCoin}
    {rate now : Nat} {s : TokenState} {amt : Nat}
    (h : t.validate_sell_token txid nonce us ur ic oc rate now = .ok (s, amt)) :
    s.nonce = ((t.states.getLast?.getD TokenState.default).nonce + 1) % 2 ^ 64 ∧
    s.id = some txid := by
  simp only [CanvasToken.validate_sell_token] at h
  repeat' split at h
  any_goals exact Except.noConfusion h
  rw [Except.ok.injEq, Prod.mk.injEq] at h
  obtain ⟨hs, hamt⟩ := h
  subst hs
  refine ⟨?_, rfl⟩
  simp [*]

/-- `rotate_left idx` then `truncate (len - idx)` equals dropping `idx`. -/
theorem rotate_take_eq_drop {α : Type} (l : List α) (n : Nat) (hn : n ≤ l.length) :
    (l.rotate n).take (l.length - n) = l.drop n := by
  have hrot := List.rotate_eq_drop_append_take hn
  have hlen : (l.drop n).length = l.length - n := by simp
  rw [hrot, ← hlen, List.take_left]

/-- A successful rollback leaves a prefix of the former states. -/
theorem rollback_ok_states {t t' : CanvasToken} {txid : Txid}
    (h : t.rollback txid = .ok t') : ∃ n, t'.states = t.states.take n := by
  unfold CanvasToken.rollback at h
  repeat' split at h
  any_goals exact Except.noConfusion h
  all_goals rw [Except.ok.injEq] at h
  all_goals subst h
  · exact ⟨0, rfl⟩
  · exact ⟨_, rfl⟩

/-- A successful finalize leaves a suffix of the former states. -/
theorem finalize_ok_states {t t' : CanvasToken} {txid : Txid}
    (h : t.finalize txid = .ok t') : ∃ n, t'.states = t.states.drop n := by
  unfold CanvasToken.finalize at h
  repeat' split at h
  any_goals exact Except.noConfusion h
  all_goals rw [Except.ok.injEq] at h
  all_goals subst h
  · exact ⟨0, rfl⟩
  · rename_i idx hne heq
    have hlt := position_lt_length heq
    exact ⟨idx, rotate_take_eq_drop t.states idx (by omega)⟩

/-! ### Reachable pool states

`Reach` captures every pool obtainable from `init_canvas_token` (empty
history) by committing validated buys/sells (`execute_tx`), rollbacks
(`rollback_tx`) and finalizations (`new_block`). -/

/-- Pools reachable by the repository's own operations. -/
inductive Reach : CanvasToken → Prop
  | init (meta : TokenMeta) (pk tw ad : String) :
      Reach { states := [], meta := meta, pubkey := pk, tweaked := tw, addr := ad }
  | buy {t : CanvasToken} {txid : Txid} {nonce : Nat} {us : List String}
      {ur : List Utxo} {ic : List InputCoin} {oc : List OutputCoin}
      {rate now : Nat} {s : TokenState} {amt : Nat} :
      Reach t →
      t.validate_buy_token txid nonce us ur ic oc rate now = .ok (s, amt) →
      Reach (t.commit s)
  | sell {t : CanvasToken} {txid : Txid} {nonce : Nat} {us : List String}
      {ur : List Utxo} {ic : List InputCoin} {oc : List OutputCoin}
      {rate now : Nat} {s : TokenState} {amt : Nat} :
      Reach t →
      t.validate_sell_token txid nonce us ur ic oc rate now = .ok (s, amt) →
      Reach (t.commit s)
  | rollb {t t' : CanvasToken} {txid : Txid} :
      Reach t → t.rollback txid = .ok t' → Reach t'
  | fin {t t' : CanvasToken} {txid : Txid} :
      Reach t → t.finalize txid = .ok t' → Reach t'

/-- Appending a state whose nonce is the wrapped successor of the last
nonce preserves the wrapping nonce chain. -/
theorem chain_append_last {l : List TokenState} {s : TokenState}
    (hc : List.Chain' (fun a b => b.nonce = (a.nonce + 1) % 2 ^ 64) l)
    (hs : s.nonce = ((l.getLast?.getD TokenState.default).nonce + 1) % 2 ^ 64) :
    List.Chain' (fun a b => b.nonce = (a.nonce + 1) % 2 ^ 64) (l ++ [s]) := by
  rw [List.chain'_append]
  refine ⟨hc, List.chain'_singleton s, ?_⟩
  intro x hx y hy
  cases l with
  | nil => simp at hx
  | cons a as =>
    simp only [List.head?_cons, Option.mem_def, Option.some.injEq] at hy
    subst hy
    have hlast : (a :: as).getLast? = some ((a :: as).getLast (by simp)) :=
      List.getLast?_eq_getLast _ (by simp)
    rw [hlast] at hx hs
    simp only [Option.mem_def, Option.some.injEq] at hx
    subst hx
    simpa using hs

/-- Every reachable pool has adjacent nonces related by the wrapping u64
successor, and every committed state's nonce is a valid u64 value. -/
theorem reach_nonce_invariant {t : CanvasToken} (h : Reach t) :
    List.Chain' (fun a b => b.nonce = (a.nonce + 1) % 2 ^ 64) t.states ∧
    ∀ x ∈ t.states, x.nonce < 2 ^ 64 := by
  induction h with
  | init meta pk tw ad => exact ⟨List.chain'_nil, by simp⟩
  | buy hr hv ih =>
    obtain ⟨hn, hid⟩ := validate_buy_ok_inv hv
    refine ⟨chain_append_last ih.1 hn, ?_⟩
    intro x hx
    rcases List.mem_append.mp hx with hx | hx
    · exact ih.2 x hx
    · simp only [List.mem_singleton] at hx
      subst hx
      rw [hn]
      omega
  | sell hr hv ih =>
    obtain ⟨hn, hid⟩ := validate_sell_ok_inv hv
    refine ⟨chain_append_last ih.1 hn, ?_⟩
    intro x hx
    rcases List.mem_append.mp hx with hx | hx
    · exact ih.2 x hx
    · simp only [List.mem_singleton] at hx
      subst hx
      rw [hn]
      omega
  | rollb hr hb ih =>
    obtain ⟨n, hn⟩ := rollback_ok_states hb
    rw [hn]
    exact ⟨ih.1.take n, fun x hx => ih.2 x (List.take_subset n _ hx)⟩
  | fin hr hf ih =>
    obtain ⟨n, hn⟩ := finalize_ok_states hf
    rw [hn]
    exact ⟨ih.1.drop n, fun x hx => ih.2 x (List.drop_subset n _ hx)⟩

/-! ### Claim C3 -/

/-- The state committed by the first sample buy: txid 7, nonce 1. -/
def cexState1 : TokenState :=
  { id := some 7, nonce := 1, btc_balance := 10000, exchange_rate := some 100, timestamp := 42 }

/-- The state committed by the second sample buy: txid 9, nonce 2. -/
def cexState2 : TokenState :=
  { id := some 9, nonce := 2, btc_balance := 20000, exchange_rate := some 100, timestamp := 43 }

/-- The sample pool after buys of txids 7 and 9 and a finalize of txid 9:
only the txid-9 state (nonce 2) remains, as the new base. -/
def cexPoolFinal : CanvasToken :=
  { states := [cexState2], meta := sampleMeta, pubkey := "pk", tweaked := "tw", addr := "pool1" }

/-- `cexPoolFinal` is reachable: init, buy txid 7, buy txid 9, finalize 9. -/
theorem reach_cexPoolFinal : Reach cexPoolFinal := by
  have h0 : Reach samplePool := Reach.init sampleMeta "pk" "tw" "pool1"
  have h1 : Reach (samplePool.commit cexState1) :=
    Reach.buy h0 (show samplePool.validate_buy_token 7 0 [] [] [btcInput 10000]
      [tokenOutput 1000000] 100 42 = .ok (cexState1, 1000000) from rfl)
  have h2 : Reach ((samplePool.commit cexState1).commit cexState2) :=
    Reach.buy h1 (show (samplePool.commit cexState1).validate_buy_token 9 1 [] []
      [btcInput 10000] [tokenOutput 1000000] 100 43 = .ok (cexState2, 1000000) from rfl)
  exact Reach.fin h2 (show ((samplePool.commit cexState1).commit cexState2).finalize 9
      = .ok cexPoolFinal from rfl)

/-- Counterexample for C3: a reachable pool (two buys, then a finalize of
the second txid) whose `states[0]` has nonce 2 — not 0 or 1 as claimed. -/
theorem c3_counterexample :
    Reach cexPoolFinal ∧ cexPoolFinal.states.head? = some cexState2 ∧
    cexState2.nonce ≠ 0 ∧ cexState2.nonce ≠ 1 :=
  ⟨reach_cexPoolFinal, rfl, by decide, by decide⟩

/-- Claim C3 (amended): for every pool reachable by committed mutations,
adjacent states satisfy the wrapping u64 successor relation
`states[i].nonce = (states[i-1].nonce + 1) % 2 ^ 64` (the unchecked
`nonce += 1` wraps at `u64::MAX`), and every state's nonce is a valid u64
value.  The original claim's `states[0].nonce ∈ {0, 1}` fails because
`finalize` promotes a later state — keeping its nonce — to index 0. -/
theorem c3_nonce_chain (t : CanvasToken) (h : Reach t) :
    (∀ i (hi : i + 1 < t.states.length),
        (t.states.get ⟨i + 1, hi⟩).nonce
          = ((t.states.get ⟨i, Nat.lt_of_succ_lt hi⟩).nonce + 1) % 2 ^ 64) ∧
    ∀ x ∈ t.states, x.nonce < 2 ^ 64 := by
  obtain ⟨hc, hp⟩ := reach_nonce_invariant h
  refine ⟨?_, hp⟩
  intro i hi
  exact List.chain'_iff_get.mp hc i (by omega)

/-- Witness for C3 (amended), at the concrete reachable pool
`cexPoolFinal`. -/
theorem c3_witness :
    (∀ i (hi : i + 1 < cexPoolFinal.states.length),
        (cexPoolFinal.states.get ⟨i + 1, hi⟩).nonce
          = ((cexPoolFinal.states.get ⟨i, Nat.lt_of_succ_lt hi⟩).nonce + 1) % 2 ^ 64) ∧
    ∀ x ∈ cexPoolFinal.states, x.nonce < 2 ^ 64 :=
  c3_nonce_chain cexPoolFinal reach_cexPoolFinal

/-! ### Claim C8 -/

/-- Reachability restricted to runs in which `execute_tx` is never invoked
with a txid already present in the target pool's states (Bitcoin txids are
globally unique, so the orchestrator guarantees this). -/
inductive FreshReach : CanvasToken → Prop
  | init (meta : TokenMeta) (pk tw ad : String) :
      FreshReach { states := [], meta := meta, pubkey := pk, tweaked := tw, addr := ad }
  | buy {t : CanvasToken} {txid : Txid} {nonce : Nat} {us : List String}
      {ur : List Utxo} {ic : List InputCoin} {oc : List OutputCoin}
      {rate now : Nat} {s : TokenState} {amt : Nat} :
      FreshReach t →
      (∀ x ∈ t.states, x.id ≠ some txid) →
      t.validate_buy_token txid nonce us ur ic oc rate now = .ok (s, amt) →
      FreshReach (t.commit s)
  | sell {t : CanvasToken} {txid : Txid} {nonce : Nat} {us : List String}
      {ur : List Utxo} {ic : List InputCoin} {oc : List OutputCoin}
      {rate now : Nat} {s : TokenState} {amt : Nat} :
      FreshReach t →
      (∀ x ∈ t.states, x.id ≠ some txid) →
      t.validate_sell_token txid nonce us ur ic oc rate now = .ok (s, amt) →
      FreshReach (t.commit s)
  | rollb {t t' : CanvasToken} {txid : Txid} :
      FreshReach t → t.rollback txid = .ok t' → FreshReach t'
  | fin {t t' : CanvasToken} {txid : Txid} :
      FreshReach t → t.finalize txid = .ok t' → FreshReach t'

/-- Under fresh txids, states are pairwise id-distinct (unless `None`). -/
theorem freshreach_pairwise {t : CanvasToken} (h : FreshReach t) :
    List.Pairwise (fun a b => a.id = b.id → a.id = none) t.states := by
  induction h with
  | init meta pk tw ad => simp
  | buy hr hfresh hv ih =>
    obtain ⟨hn, hid⟩ := validate_buy_ok_inv hv
    refine List.pairwise_append.mpr ⟨ih, by simp, ?_⟩
    intro a ha b hb
    simp only [List.mem_singleton] at hb
    subst hb
    intro hab
    exact absurd (hab.trans hid) (hfresh a ha)
  | sell hr hfresh hv ih =>
    obtain ⟨hn, hid⟩ := validate_sell_ok_inv hv
    refine List.pairwise_append.mpr ⟨ih, by simp, ?_⟩
    intro a ha b hb
    simp only [List.mem_singleton] at hb
    subst hb
    intro hab
    exact absurd (hab.trans hid) (hfresh a ha)
  | rollb hr hb ih =>
    obtain ⟨n, hn⟩ := rollback_ok_states hb
    rw [hn]
    exact ih.sublist (List.take_sublist n _)
  | fin hr hf ih =>
    obtain ⟨n, hn⟩ := finalize_ok_states hf
    rw [hn]
    exact ih.sublist (List.drop_sublist n _)

/-- The state committed by re-executing txid 7 a second time (nonce 2). -/
def dupState2 : TokenState :=
  { id := some 7, nonce := 2, btc_balance := 20000, exchange_rate := some 100, timestamp := 43 }

/-- A pool reached by buying with txid 7 twice (correct nonces 0 then 1):
two distinct states both carry `id = some 7`. -/
def dupPool : CanvasToken :=
  { states := [cexState1, dupState2], meta := sampleMeta,
    pubkey := "pk", tweaked := "tw", addr := "pool1" }

/-- Counterexample for C8: the code never checks that a committed txid is
new, so executing the same txid twice (with matching nonces) yields a
reachable pool with two distinct states carrying the same `Some` id. -/
theorem c8_counterexample :
    Reach dupPool ∧
    ¬ (∀ i j (hi : i < dupPool.states.length) (hj : j < dupPool.states.length),
        i ≠ j →
        (dupPool.states.get ⟨i, hi⟩).id = (dupPool.states.get ⟨j, hj⟩).id →
        (dupPool.states.get ⟨i, hi⟩).id = none) := by
  constructor
  · have h0 : Reach samplePool := Reach.init sampleMeta "pk" "tw" "pool1"
    have h1 : Reach (samplePool.commit cexState1) :=
      Reach.buy h0 (show samplePool.validate_buy_token 7 0 [] [] [btcInput 10000]
        [tokenOutput 1000000] 100 42 = .ok (cexState1, 1000000) from rfl)
    exact Reach.buy h1 (show (samplePool.commit cexState1).validate_buy_token 7 1 [] []
      [btcInput 10000] [tokenOutput 1000000] 100 43 = .ok (dupState2, 1000000) from rfl)
  · intro hcl
    have h01 := hcl 0 1 (by decide) (by decide) (by decide) rfl
    exact absurd h01 (by decide)

/-- Claim C8 (amended): provided `execute_tx` is never invoked with a txid
already present in the pool's states (the orchestrator supplies globally
unique Bitcoin txids), no two states at distinct indices share a non-`None`
id. -/
theorem c8_no_duplicate_txid (t : CanvasToken) (h : FreshReach t) :
    ∀ i j (hi : i < t.states.length) (hj : j < t.states.length), i ≠ j →
      (t.states.get ⟨i, hi⟩).id = (t.states.get ⟨j, hj⟩).id →
      (t.states.get ⟨i, hi⟩).id = none := by
  have hp := freshreach_pairwise h
  rw [List.pairwise_iff_get] at hp
  intro i j hi hj hne heq
  rcases Nat.lt_or_ge i j with hlt | hge
  · exact hp ⟨i, hi⟩ ⟨j, hj⟩ hlt heq
  · have hlt : j < i := by omega
    have hj' := hp ⟨j, hj⟩ ⟨i, hi⟩ hlt heq.symm
    rw [heq, hj']

/-- Two fresh buys (txids 7 then 9) on the sample pool stay within the
fresh-txid discipline. -/
theorem freshReach_two : FreshReach ((samplePool.commit cexState1).commit cexState2) :=
  FreshReach.buy
    (FreshReach.buy (FreshReach.init sampleMeta "pk" "tw" "pool1")
      (by simp [samplePool])
      (show samplePool.validate_buy_token 7 0 [] [] [btcInput 10000]
        [tokenOutput 1000000] 100 42 = .ok (cexState1, 1000000) from rfl))
    (by simp [samplePool, CanvasToken.commit, cexState1])
    (show (samplePool.commit cexState1).validate_buy_token 9 1 [] []
      [btcInput 10000] [tokenOutput 1000000] 100 43 = .ok (cexState2, 1000000) from rfl)

/-- Witness for C8 (amended): two fresh buys (txids 7 and 9) on the sample
pool; the resulting two states carry distinct ids. -/
theorem c8_witness :
    FreshReach ((samplePool.commit cexState1).commit cexState2) ∧
    (∀ i j (hi : i < ((samplePool.commit cexState1).commit cexState2).states.length)
      (hj : j < ((samplePool.commit cexState1).commit cexState2).states.length), i ≠ j →
      (((samplePool.commit cexState1).commit cexState2).states.get ⟨i, hi⟩).id
        = (((samplePool.commit cexState1).commit cexState2).states.get ⟨j, hj⟩).id →
      (((samplePool.commit cexState1).commit cexState2).states.get ⟨i, hi⟩).id = none) :=
  ⟨freshReach_two, c8_no_duplicate_txid _ freshReach_two⟩

/-! ### Exchange-level state (`src/ree/mod.rs`, `src/ree/exchange.rs`)

`ExchangeState` collects the canister's thread-local stable maps:
`CANVAS_TOKENS`, `BLOCKS` (a BTreeMap, kept as a key-sorted association
list), `TX_RECORDS` (split into its `(txid, false)` and `(txid, true)`
projections) and `EXECUTING_TOKENS`. -/

/-- `ree_types::TxRecord`: the pool addresses touched by a txid. -/
structure TxRecord where
  pools : List String
deriving DecidableEq, Repr

/-- `ree_types::exchange_interfaces::NewBlockInfo`. -/
structure NewBlockInfo where
  block_height : Nat
  block_hash : String
  block_timestamp : Nat
  confirmed_txids : List Txid
deriving DecidableEq, Repr

/-- The canister's global stable state. -/
structure ExchangeState where
  tokens : String → Option CanvasToken
  blocks : List (Nat × NewBlockInfo)
  unconfirmed : Txid → Option TxRecord
  confirmed : Txid → Option TxRecord
  executing : List String

/-- Point update of a function-backed map (`insert` for `some`, `remove`
for `none`). -/
def fupdate {α β : Type} [DecidableEq α] (m : α → Option β) (k : α) (v : Option β) :
    α → Option β :=
  fun x => if x = k then v else m x

/-- External PSBT stand-in (the core never inspects it). -/
structure Psbt where
  bytes : List Nat
deriving DecidableEq, Repr

/-- One hex digit, as in the `hex` crate. -/
def hexDigit (c : Char) : Option Nat :=
  if '0' ≤ c ∧ c ≤ '9' then some (c.toNat - '0'.toNat)
  else if 'a' ≤ c ∧ c ≤ 'f' then some (c.toNat - 'a'.toNat + 10)
  else if 'A' ≤ c ∧ c ≤ 'F' then some (c.toNat - 'A'.toNat + 10)
  else none

/-- `hex::decode` on a character list: even length, all hex digits. -/
def hexDecodeChars : List Char → Option (List Nat)
  | [] => some []
  | [_] => none
  | c1 :: c2 :: rest =>
    match hexDigit c1, hexDigit c2, hexDecodeChars rest with
    | some hi, some lo, some r => some ((hi * 16 + lo) :: r)
    | _, _, _ => none

/-- `hex::decode`. -/
def hexDecode (s : String) : Option (List Nat) :=
  hexDecodeChars s.data

/-- `ree_types::Intention`. -/
structure Intention where
  exchange_id : String
  action : String
  action_params : String
  pool_address : String
  nonce : Nat
  pool_utxo_spent : List String
  pool_utxo_received : List Utxo
  input_coins : List InputCoin
  output_coins : List OutputCoin
deriving DecidableEq, Repr

/-- `ree_types::IntentionSet`. -/
structure IntentionSet where
  initiator_address : String
  intentions : List Intention
deriving DecidableEq, Repr

/-- `ree_types::exchange_interfaces::ExecuteTxArgs`. -/
structure ExecuteTxArgs where
  psbt_hex : String
  txid : Txid
  intention_set : IntentionSet
  intention_index : Nat
  zero_confirmed_tx_queue_length : Nat
deriving DecidableEq, Repr

/-- The `TX_RECORDS` update at the end of `execute_tx`: upsert the
`(txid, false)` record, adding the pool address if not already present. -/
def recordUnconfirmed (st : ExchangeState) (txid : Txid) (addr : String) : ExchangeState :=
  let record := (st.unconfirmed txid).getD ⟨[]⟩
  let rec2 := if addr ∈ record.pools then record else TxRecord.mk (record.pools ++ [addr])
  { st with unconfirmed := fupdate st.unconfirmed txid (some rec2) }

/-- `execute_tx` (exchange.rs:165-282).  `deser`/`serHex` are the external
PSBT codec; `now` is `ic_cdk::api::time()`.  The result is `none` when the
Rust code traps (panics): the out-of-bounds
`intention_set.intentions[intention_index]` indexing, and the
`expect("already checked in pre_*; qed")` registry lookups.  Handled
failures are `some (.error msg, state)`; the exchange rate is the hardcoded
literal 100 (the `TODO` in the source).  The `ExecuteTxGuard` is acquired
at entry and dropped on every exit, so `executing` is unchanged in every
non-trap outcome; the guard-busy check is the `∈ st.executing` test. -/
def execute_tx (deser : List Nat → Option Psbt) (serHex : Psbt → String)
    (now : Nat) (args : ExecuteTxArgs) (st : ExchangeState) :
    Option (Except String String × ExchangeState) :=
  match hexDecode args.psbt_hex with
  | none => some (.error "invalid psbt", st)
  | some raw =>
  match deser raw with
  | none => some (.error "invalid psbt", st)
  | some psbt =>
  match args.intention_set.intentions.get? args.intention_index with
  | none => none
  | some intention =>
  if intention.pool_address ∈ st.executing then
    some (.error ("Token " ++ intention.pool_address ++ " Executing"), st)
  else
  match st.tokens intention.pool_address with
  | none => none
  | some canvas_token =>
  if intention.action = "buy_token" then
    match canvas_token.validate_buy_token args.txid intention.nonce
        intention.pool_utxo_spent intention.pool_utxo_received
        intention.input_coins intention.output_coins 100 now with
    | .error e => some (.error e.toMessage, st)
    | .ok (new_state, _amt) =>
      match st.tokens intention.pool_address with
      | none => none
      | some token =>
        let st1 : ExchangeState :=
          { st with
            tokens := fupdate st.tokens intention.pool_address (some (token.commit new_state)) }
        some (.ok (serHex psbt), recordUnconfirmed st1 args.txid intention.pool_address)
  else if intention.action = "sell_token" then
    match canvas_token.validate_sell_token args.txid intention.nonce
        intention.pool_utxo_spent intention.pool_utxo_received
        intention.input_coins intention.output_coins 100 now with
    | .error e => some (.error e.toMessage, st)
    | .ok (new_state, _amt) =>
      match st.tokens intention.pool_address with
      | none => none
      | some token =>
        let st1 : ExchangeState :=
          { st with
            tokens := fupdate st.tokens intention.pool_address (some (token.commit new_state)) }
        some (.ok (serHex psbt), recordUnconfirmed st1 args.txid intention.pool_address)
  else
    some (.error "invalid method", st)

/-! ### Claim C7 -/

/-- Claim C7: every error return of `execute_tx` (guard busy, invalid psbt,
unknown action, validation failure) leaves the pool registry and both tiers
of the tx-records ledger exactly as they were: commits, persistence and the
unconfirmed ledger entry happen only after validation succeeds. -/
theorem c7_execute_tx_error_no_mutation (deser : List Nat → Option Psbt)
    (serHex : Psbt → String) (now : Nat) (args : ExecuteTxArgs) (st : ExchangeState)
    (e : String) (st' : ExchangeState)
    (h : execute_tx deser serHex now args st = some (.error e, st')) :
    st'.tokens = st.tokens ∧ st'.unconfirmed = st.unconfirmed ∧
    st'.confirmed = st.confirmed := by
  unfold execute_tx at h
  repeat' split at h
  any_goals exact Option.noConfusion h
  all_goals rw [Option.some.injEq, Prod.mk.injEq] at h
  any_goals exact Except.noConfusion h.1
  all_goals obtain ⟨he, hst⟩ := h
  all_goals subst hst
  all_goals exact ⟨rfl, rfl, rfl⟩

/-- A PSBT deserializer stand-in that accepts any byte string. -/
def deser0 : List Nat → Option Psbt := fun bs => some ⟨bs⟩

/-- A PSBT serializer stand-in. -/
def serHex0 : Psbt → String := fun _ => ""

/-- The canister state with no pools, blocks or records. -/
def emptyExchangeState : ExchangeState :=
  { tokens := fun _ => none, blocks := [], unconfirmed := fun _ => none,
    confirmed := fun _ => none, executing := [] }

/-- A well-formed buy intention targeting pool address `"pool1"`. -/
def intention0 : Intention :=
  { exchange_id := "", action := "buy_token", action_params := "", pool_address := "pool1",
    nonce := 0, pool_utxo_spent := [], pool_utxo_received := [],
    input_coins := [btcInput 10000], output_coins := [tokenOutput 1000000] }

/-- Arguments whose intention index 0 is out of bounds (no intentions). -/
def argsOob : ExecuteTxArgs :=
  { psbt_hex := "", txid := 7,
    intention_set := { initiator_address := "", intentions := [] },
    intention_index := 0, zero_confirmed_tx_queue_length := 0 }

/-- Arguments naming a pool address absent from the registry. -/
def argsNoPool : ExecuteTxArgs :=
  { psbt_hex := "", txid := 7,
    intention_set := { initiator_address := "", intentions := [intention0] },
    intention_index := 0, zero_confirmed_tx_queue_length := 0 }

/-- Arguments whose `psbt_hex` is not valid hex. -/
def argsBadPsbt : ExecuteTxArgs :=
  { psbt_hex := "zz", txid := 7,
    intention_set := { initiator_address := "", intentions := [intention0] },
    intention_index := 0, zero_confirmed_tx_queue_length := 0 }

/-- Witness for C7: the malformed-psbt error leaves the empty state
untouched. -/
theorem c7_witness :
    execute_tx deser0 serHex0 0 argsBadPsbt emptyExchangeState
      = some (.error "invalid psbt", emptyExchangeState) ∧
    (emptyExchangeState.tokens = emptyExchangeState.tokens ∧
     emptyExchangeState.unconfirmed = emptyExchangeState.unconfirmed ∧
     emptyExchangeState.confirmed = emptyExchangeState.confirmed) :=
  ⟨rfl, c7_execute_tx_error_no_mutation deser0 serHex0 0 argsBadPsbt emptyExchangeState
     "invalid psbt" emptyExchangeState rfl⟩

/-! ### Claim C10 -/

/-- Claim C10: `execute_tx` is not total: once the PSBT decodes, an
`intention_index` at or beyond the number of intentions traps (out-of-bounds
indexing), and an unknown `pool_address` traps on the registry `expect` —
both modelled as `none` — even though the other failures on this path are
returned as `Err` strings. -/
theorem c10_execute_tx_traps (deser : List Nat → Option Psbt) (serHex : Psbt → String)
    (now : Nat) (args : ExecuteTxArgs) (st : ExchangeState)
    (raw : List Nat) (psbt : Psbt)
    (hdec : hexDecode args.psbt_hex = some raw) (hdes : deser raw = some psbt) :
    (args.intention_set.intentions.length ≤ args.intention_index →
       execute_tx deser serHex now args st = none) ∧
    (∀ intention, args.intention_set.intentions.get? args.intention_index = some intention →
       intention.pool_address ∉ st.executing →
       st.tokens intention.pool_address = none →
       execute_tx deser serHex now args st = none) := by
  constructor
  · intro hlen
    have hg : args.intention_set.intentions.get? args.intention_index = none :=
      List.get?_eq_none.mpr hlen
    simp only [execute_tx, hdec, hdes, hg]
  · intro intention hget hnex hnone
    simp only [execute_tx, hdec, hdes, hget, hnone, if_neg hnex]

/-- Witness for C10: both trap sites hit on concrete inputs — an empty
intention list with index 0, and a buy intention naming an unregistered
pool. -/
theorem c10_witness :
    execute_tx deser0 serHex0 0 argsOob emptyExchangeState = none ∧
    execute_tx deser0 serHex0 0 argsNoPool emptyExchangeState = none :=
  ⟨(c10_execute_tx_traps deser0 serHex0 0 argsOob emptyExchangeState [] ⟨[]⟩ rfl rfl).1
     (by decide),
   (c10_execute_tx_traps deser0 serHex0 0 argsNoPool emptyExchangeState [] ⟨[]⟩ rfl rfl).2
     intention0 rfl (by simp [emptyExchangeState]) rfl⟩

/-! ### `new_block` (exchange.rs:85-158)

The stable BTreeMap `BLOCKS` iterates in ascending key order, so its
`iter().take_while(height ≤ confirmed_height)` prefix is modelled as
`takeWhile` over the sorted association list. -/

/-- `StableBTreeMap::insert` on the height-sorted block list. -/
def blocksInsert : List (Nat × NewBlockInfo) → Nat → NewBlockInfo → List (Nat × NewBlockInfo)
  | [], k, v => [(k, v)]
  | (k', v') :: rest, k, v =>
    if k < k' then (k, v) :: (k', v') :: rest
    else if k = k' then (k, v) :: rest
    else (k', v') :: blocksInsert rest k v

/-- The promotion step: `if let Some(r) = remove((txid, false)) then
insert((txid, true), r)`. -/
def promoteTx (s : ExchangeState) (txid : Txid) : ExchangeState :=
  match s.unconfirmed txid with
  | some r => { s with unconfirmed := fupdate s.unconfirmed txid none,
                       confirmed := fupdate s.confirmed txid (some r) }
  | none => s

/-- `if block_height >= 6 { block_height - 6 } else { 0 }`. -/
def confirmedHeight (h : Nat) : Nat := if 6 ≤ h then h - 6 else 0

/-- Finalizing one pool for a txid: on a finalize error the token is not
re-inserted (the mutated copy is discarded, matching the logged-and-skipped
branch). -/
def finalizePool (txid : Txid) (s : ExchangeState) (addr : String) : ExchangeState :=
  match s.tokens addr with
  | some token =>
    match token.finalize txid with
    | .ok t' => { s with tokens := fupdate s.tokens addr (some t') }
    | .error _ => s
  | none => s

/-- Finalizing one confirmed txid: finalize each pool of its record, then
drop the `(txid, true)` entry. -/
def finalizeTx (s : ExchangeState) (txid : Txid) : ExchangeState :=
  match s.confirmed txid with
  | some record =>
    let s2 := record.pools.foldl (finalizePool txid) s
    { s2 with confirmed := fupdate s2.confirmed txid none }
  | none => s

/-- Finalizing every confirmed txid of one stored block. -/
def finalizeBlock (s : ExchangeState) (p : Nat × NewBlockInfo) : ExchangeState :=
  p.2.confirmed_txids.foldl finalizeTx s

/-- `new_block` step 1: insert the block at its height. -/
def insertPhase (args : NewBlockInfo) (st : ExchangeState) : ExchangeState :=
  { st with blocks := blocksInsert st.blocks args.block_height args }

/-- `new_block` step 2: promote each confirmed txid of the new block. -/
def promotePhase (args : NewBlockInfo) (st : ExchangeState) : ExchangeState :=
  args.confirmed_txids.foldl promoteTx (insertPhase args st)

/-- `new_block` step 3: finalize the stored blocks at or below the
confirmed height, in ascending height order. -/
def finalizeSweep (ch : Nat) (st : ExchangeState) : ExchangeState :=
  (st.blocks.takeWhile (fun p => decide (p.1 ≤ ch))).foldl finalizeBlock st

/-- `new_block` step 4: collect the heights at or below the confirmed
height and remove each. -/
def prunePhase (ch : Nat) (st : ExchangeState) : ExchangeState :=
  let heights := (st.blocks.takeWhile (fun p => decide (p.1 ≤ ch))).map Prod.fst
  { st with
    blocks := heights.foldl (fun bs k => bs.filter (fun p => decide (p.1 ≠ k))) st.blocks }

/-- `new_block` (exchange.rs:85-158), as the composition of its phases. -/
def new_block (args : NewBlockInfo) (st : ExchangeState) : ExchangeState :=
  prunePhase (confirmedHeight args.block_height)
    (finalizeSweep (confirmedHeight args.block_height) (promotePhase args st))

/-- Members of an inserted block list come from the old list or are the new
entry. -/
theorem blocksInsert_mem {bs : List (Nat × NewBlockInfo)} {k : Nat} {v : NewBlockInfo}
    {x : Nat × NewBlockInfo} (h : x ∈ blocksInsert bs k v) : x ∈ bs ∨ x = (k, v) := by
  induction bs with
  | nil => simp [blocksInsert] at h; simp [h]
  | cons kv rest ih =>
    obtain ⟨k', v'⟩ := kv
    simp only [blocksInsert] at h
    split at h
    · rcases List.mem_cons.mp h with h | h
      · right; exact h
      · left; exact h
    · split at h
      · rcases List.mem_cons.mp h with h | h
        · right; exact h
        · left; exact List.mem_cons_of_mem _ h
      · rcases List.mem_cons.mp h with h | h
        · left; exact h ▸ List.mem_cons_self _ _
        · rcases ih h with h | h
          · left; exact List.mem_cons_of_mem _ h
          · right; exact h

/-- `blocksInsert` preserves strict key-sortedness. -/
theorem blocksInsert_sorted {bs : List (Nat × NewBlockInfo)} {k : Nat} {v : NewBlockInfo}
    (hs : List.Pairwise (fun a b => a.1 < b.1) bs) :
    List.Pairwise (fun a b => a.1 < b.1) (blocksInsert bs k v) := by
  induction bs with
  | nil => simp [blocksInsert]
  | cons kv rest ih =>
    obtain ⟨k', v'⟩ := kv
    rw [List.pairwise_cons] at hs
    obtain ⟨hall, htail⟩ := hs
    simp only [blocksInsert]
    split
    · next hlt =>
      rw [List.pairwise_cons]
      refine ⟨?_, List.pairwise_cons.mpr ⟨hall, htail⟩⟩
      intro x hx
      rcases List.mem_cons.mp hx with rfl | hx
      · exact hlt
      · exact Nat.lt_trans hlt (hall x hx)
    · split
      · next hne heq =>
        subst heq
        exact List.pairwise_cons.mpr ⟨hall, htail⟩
      · next hge hne =>
        rw [List.pairwise_cons]
        refine ⟨?_, ih htail⟩
        intro x hx
        rcases blocksInsert_mem hx with hx | rfl
        · exact hall x hx
        · omega

/-- On a strictly sorted block list, the ordered `take_while (key ≤ c)`
prefix is exactly the set of entries with key at most `c`. -/
theorem sorted_takeWhile_eq_filter {bs : List (Nat × NewBlockInfo)} {c : Nat}
    (hs : List.Pairwise (fun a b => a.1 < b.1) bs) :
    bs.takeWhile (fun p => decide (p.1 ≤ c)) = bs.filter (fun p => decide (p.1 ≤ c)) := by
  induction bs with
  | nil => rfl
  | cons kv rest ih =>
    rw [List.pairwise_cons] at hs
    obtain ⟨hall, htail⟩ := hs
    by_cases hk : kv.1 ≤ c
    · rw [List.takeWhile_cons_of_pos (by simpa using hk),
        List.filter_cons_of_pos (by simpa using hk), ih htail]
    · rw [List.takeWhile_cons_of_neg (by simpa using hk),
        List.filter_cons_of_neg (by simpa using hk)]
      rw [eq_comm, List.filter_eq_nil_iff]
      intro a ha
      have := hall a ha
      simp only [decide_eq_true_eq]
      omega

/-- Whatever survives the removal loop was present before and has none of
the removed keys. -/
theorem mem_foldl_remove {heights : List Nat} {bs0 : List (Nat × NewBlockInfo)}
    {x : Nat × NewBlockInfo}
    (h : x ∈ heights.foldl (fun bs k => bs.filter (fun p => decide (p.1 ≠ k))) bs0) :
    x ∈ bs0 ∧ x.1 ∉ heights := by
  induction heights generalizing bs0 with
  | nil => exact ⟨h, by simp⟩
  | cons k ks ih =>
    rw [List.foldl_cons] at h
    obtain ⟨hmem, hnot⟩ := ih h
    rw [List.mem_filter] at hmem
    obtain ⟨hmem, hne⟩ := hmem
    simp only [decide_eq_true_eq] at hne
    exact ⟨hmem, by simp [hne, hnot]⟩

/-- `finalizePool` never touches the block map. -/
theorem finalizePool_blocks (txid : Txid) (s : ExchangeState) (addr : String) :
    (finalizePool txid s addr).blocks = s.blocks := by
  unfold finalizePool
  repeat' split
  all_goals rfl

/-- Folding `finalizePool` never touches the block map. -/
theorem foldl_finalizePool_blocks (txid : Txid) (pools : List String) (s : ExchangeState) :
    (pools.foldl (finalizePool txid) s).blocks = s.blocks := by
  induction pools generalizing s with
  | nil => rfl
  | cons a as ih => rw [List.foldl_cons, ih, finalizePool_blocks]

/-- `finalizeTx` never touches the block map. -/
theorem finalizeTx_blocks (s : ExchangeState) (txid : Txid) :
    (finalizeTx s txid).blocks = s.blocks := by
  unfold finalizeTx
  split
  · exact foldl_finalizePool_blocks _ _ _
  · rfl

/-- `finalizeBlock` never touches the block map. -/
theorem finalizeBlock_blocks (s : ExchangeState) (p : Nat × NewBlockInfo) :
    (finalizeBlock s p).blocks = s.blocks := by
  unfold finalizeBlock
  generalize p.2.confirmed_txids = ts
  induction ts generalizing s with
  | nil => rfl
  | cons a as ih => rw [List.foldl_cons, ih, finalizeTx_blocks]

/-- The whole finalize sweep never touches the block map. -/
theorem foldl_finalizeBlock_blocks (bl : List (Nat × NewBlockInfo)) (s : ExchangeState) :
    (bl.foldl finalizeBlock s).blocks = s.blocks := by
  induction bl generalizing s with
  | nil => rfl
  | cons a as ih => rw [List.foldl_cons, ih, finalizeBlock_blocks]

/-- `finalizePool` never touches the confirmed ledger. -/
theorem finalizePool_confirmed (txid : Txid) (s : ExchangeState) (addr : String) :
    (finalizePool txid s addr).confirmed = s.confirmed := by
  unfold finalizePool
  repeat' split
  all_goals rfl

/-- Folding `finalizePool` never touches the confirmed ledger. -/
theorem foldl_finalizePool_confirmed (txid : Txid) (pools : List String) (s : ExchangeState) :
    (pools.foldl (finalizePool txid) s).confirmed = s.confirmed := by
  induction pools generalizing s with
  | nil => rfl
  | cons a as ih => rw [List.foldl_cons, ih, finalizePool_confirmed]

/-- After `finalizeTx s txid`, the `(txid, true)` entry is gone. -/
theorem finalizeTx_confirmed_self (s : ExchangeState) (txid : Txid) :
    (finalizeTx s txid).confirmed txid = none := by
  unfold finalizeTx
  split
  · show fupdate _ txid none txid = none
    simp [fupdate]
  · next heq => exact heq

/-- `finalizeTx` never re-adds a confirmed entry. -/
theorem finalizeTx_confirmed_mono {s : ExchangeState} {t : Txid} (t' : Txid)
    (h : s.confirmed t = none) : (finalizeTx s t').confirmed t = none := by
  unfold finalizeTx
  split
  · show fupdate _ t' none t = none
    rw [fupdate]
    split
    · rfl
    · rw [foldl_finalizePool_confirmed]
      exact h
  · exact h

/-- Folding `finalizeTx` never re-adds a confirmed entry. -/
theorem foldl_finalizeTx_confirmed_mono {s : ExchangeState} {t : Txid}
    (ts : List Txid) (h : s.confirmed t = none) :
    (ts.foldl finalizeTx s).confirmed t = none := by
  induction ts generalizing s with
  | nil => exact h
  | cons a as ih => exact ih (finalizeTx_confirmed_mono a h)

/-- After a block is finalized, none of its txids has a confirmed entry. -/
theorem finalizeBlock_confirmed_none (s : ExchangeState) (p : Nat × NewBlockInfo) :
    ∀ t ∈ p.2.confirmed_txids, (finalizeBlock s p).confirmed t = none := by
  unfold finalizeBlock
  generalize p.2.confirmed_txids = ts
  induction ts generalizing s with
  | nil => simp
  | cons a as ih =>
    intro t ht
    rcases List.mem_cons.mp ht with rfl | ht
    · rw [List.foldl_cons]
      exact foldl_finalizeTx_confirmed_mono as (finalizeTx_confirmed_self s t)
    · rw [List.foldl_cons]
      exact ih (finalizeTx s a) t ht

/-- `finalizeBlock` never re-adds a confirmed entry. -/
theorem finalizeBlock_confirmed_mono {s : ExchangeState} {t : Txid}
    (p : Nat × NewBlockInfo) (h : s.confirmed t = none) :
    (finalizeBlock s p).confirmed t = none :=
  foldl_finalizeTx_confirmed_mono _ h

/-- The sweep never re-adds a confirmed entry. -/
theorem foldl_finalizeBlock_confirmed_mono {t : Txid} (bl : List (Nat × NewBlockInfo))
    {s : ExchangeState} (h : s.confirmed t = none) :
    (bl.foldl finalizeBlock s).confirmed t = none := by
  induction bl generalizing s with
  | nil => exact h
  | cons b bs ih => exact ih (finalizeBlock_confirmed_mono b h)

/-- After sweeping a list of blocks, every txid of every swept block has
lost its confirmed ledger entry. -/
theorem sweep_confirmed_none (bl : List (Nat × NewBlockInfo)) (s : ExchangeState) :
    ∀ p ∈ bl, ∀ t ∈ p.2.confirmed_txids, (bl.foldl finalizeBlock s).confirmed t = none := by
  induction bl generalizing s with
  | nil => simp
  | cons b bs ih =>
    intro p hp t ht
    rcases List.mem_cons.mp hp with rfl | hp
    · rw [List.foldl_cons]
      exact foldl_finalizeBlock_confirmed_mono bs (finalizeBlock_confirmed_none s p t ht)
    · rw [List.foldl_cons]
      exact ih (finalizeBlock s b) p hp t ht

/-- Promotion never touches the block map. -/
theorem promoteTx_blocks (s : ExchangeState) (t : Txid) :
    (promoteTx s t).blocks = s.blocks := by
  unfold promoteTx
  split
  all_goals rfl

/-- Folding promotion never touches the block map. -/
theorem foldl_promoteTx_blocks (ts : List Txid) (s : ExchangeState) :
    (ts.foldl promoteTx s).blocks = s.blocks := by
  induction ts generalizing s with
  | nil => rfl
  | cons a as ih => rw [List.foldl_cons, ih, promoteTx_blocks]

/-- After insert and promotion, the block map is the inserted one. -/
theorem promotePhase_blocks (args : NewBlockInfo) (st : ExchangeState) :
    (promotePhase args st).blocks = blocksInsert st.blocks args.block_height args := by
  unfold promotePhase
  rw [foldl_promoteTx_blocks]
  rfl

/-! ### Claim C4 -/

/-- The post-condition of `new_block args st`, with
`safe = confirmedHeight args.block_height = max(0, height - 6)`:
no stored block with height at most `safe` remains; every txid listed in a
stored (post-insert, post-promote) block of height at most `safe` has no
`(txid, true)` ledger entry left; and the pool registry and confirmed
ledger equal the ascending-height fold of the per-block finalizer over
exactly the stored blocks of height at most `safe` (each such block
finalizes every pool of every confirmed record of its txids and drops the
record). -/
def C4Post (args : NewBlockInfo) (st : ExchangeState) : Prop :=
  (∀ p ∈ (new_block args st).blocks, confirmedHeight args.block_height < p.1) ∧
  (∀ p ∈ (promotePhase args st).blocks, p.1 ≤ confirmedHeight args.block_height →
     ∀ t ∈ p.2.confirmed_txids, (new_block args st).confirmed t = none) ∧
  (new_block args st).tokens
    = (((promotePhase args st).blocks.filter
          (fun p => decide (p.1 ≤ confirmedHeight args.block_height))).foldl
        finalizeBlock (promotePhase args st)).tokens ∧
  (new_block args st).confirmed
    = (((promotePhase args st).blocks.filter
          (fun p => decide (p.1 ≤ confirmedHeight args.block_height))).foldl
        finalizeBlock (promotePhase args st)).confirmed

/-- Claim C4: on a height-sorted block map, `new_block` prunes every block
at or below `max(0, height - 6)`, removes the `(txid, true)` entry of every
txid of every such block, and finalizes the pools of those txids by folding
the per-block finalizer over exactly those blocks in ascending height
order. -/
theorem c4_new_block_finalizes_and_prunes (args : NewBlockInfo) (st : ExchangeState)
    (hs : List.Pairwise (fun a b => a.1 < b.1) st.blocks) : C4Post args st := by
  have hblocks2 : (promotePhase args st).blocks
      = blocksInsert st.blocks args.block_height args := promotePhase_blocks args st
  have hsort2 : List.Pairwise (fun a b => a.1 < b.1) (promotePhase args st).blocks := by
    rw [hblocks2]
    exact blocksInsert_sorted hs
  have htf : (promotePhase args st).blocks.takeWhile
        (fun p => decide (p.1 ≤ confirmedHeight args.block_height))
      = (promotePhase args st).blocks.filter
        (fun p => decide (p.1 ≤ confirmedHeight args.block_height)) :=
    sorted_takeWhile_eq_filter hsort2
  have hst3 : finalizeSweep (confirmedHeight args.block_height) (promotePhase args st)
      = ((promotePhase args st).blocks.filter
          (fun p => decide (p.1 ≤ confirmedHeight args.block_height))).foldl
        finalizeBlock (promotePhase args st) := by
    unfold finalizeSweep
    rw [htf]
  have hblocks3 : (finalizeSweep (confirmedHeight args.block_height)
        (promotePhase args st)).blocks = (promotePhase args st).blocks := by
    unfold finalizeSweep
    exact foldl_finalizeBlock_blocks _ _
  refine ⟨?_, ?_, ?_, ?_⟩
  · intro p hp
    obtain ⟨hmem, hnot⟩ := mem_foldl_remove hp
    by_contra hle
    push_neg at hle
    apply hnot
    rw [hblocks3, htf]
    refine List.mem_map.mpr ⟨p, List.mem_filter.mpr ⟨?_, by simpa⟩, rfl⟩
    rw [← hblocks3]
    exact hmem
  · intro p hp hple t ht
    show (finalizeSweep (confirmedHeight args.block_height)
        (promotePhase args st)).confirmed t = none
    rw [hst3]
    exact sweep_confirmed_none _ _ p (List.mem_filter.mpr ⟨hp, by simpa⟩) t ht
  · show (finalizeSweep (confirmedHeight args.block_height)
        (promotePhase args st)).tokens = _
    rw [hst3]
  · show (finalizeSweep (confirmedHeight args.block_height)
        (promotePhase args st)).confirmed = _
    rw [hst3]

/-- Block 1, containing txid 3 as confirmed. -/
def witBlock1 : NewBlockInfo :=
  { block_height := 1, block_hash := "b1", block_timestamp := 0, confirmed_txids := [3] }

/-- The arriving block 7 (so the confirmed height is 1). -/
def witArgs : NewBlockInfo :=
  { block_height := 7, block_hash := "b7", block_timestamp := 0, confirmed_txids := [] }

/-- A state holding block 1, pool `"pool1"` (whose base state has txid 3)
and a confirmed ledger entry for txid 3 touching that pool. -/
def witState : ExchangeState :=
  { tokens := fun a => if a = "pool1" then some samplePoolOneState else none,
    blocks := [(1, witBlock1)],
    unconfirmed := fun _ => none,
    confirmed := fun t => if t = 3 then some ⟨["pool1"]⟩ else none,
    executing := [] }

/-- Witness for C4: posting block 7 over the state holding block 1 prunes
block 1, finalizes txid 3 in `"pool1"` and drops its confirmed entry. -/
theorem c4_witness :
    List.Pairwise (fun (a b : Nat × NewBlockInfo) => a.1 < b.1) witState.blocks ∧
    C4Post witArgs witState :=
  ⟨by simp [witState],
   c4_new_block_finalizes_and_prunes witArgs witState (by simp [witState])⟩
